import Mathlib

/-!
Shallow embedding of `wlc/WLclassifier.py` (class `WeakLogisticRegression`)
and verification of its specification claims.

Floating-point numpy arrays are modelled as real-valued matrices
(`Mat m n := Fin m → Fin n → ℝ`); numpy row-wise reductions become `Finset`
sums and suprema; Python exceptions become an explicit error type returned
through `Except`.
-/

namespace WLC

/-- Real-valued matrices with `m` rows and `n` columns, as functions. -/
abbrev Mat (m n : ℕ) : Type := Fin m → Fin n → ℝ

/-- Matrix product, `np.dot(A, B)`. -/
def matmul {N D C : ℕ} (A : Mat N D) (B : Mat D C) : Mat N C :=
  fun i c => ∑ d, A i d * B d c

/-- Matrix transpose, `A.T`. -/
def transp {N D : ℕ} (A : Mat N D) : Mat D N :=
  fun d i => A i d

/-- Elementwise (Hadamard) product, numpy `A*B`. -/
def emul {N C : ℕ} (A B : Mat N C) : Mat N C :=
  fun i j => A i j * B i j

/-- Nonemptiness of the index finset of a row, needed for row maxima. -/
def univFinNonempty {C : ℕ} [NeZero C] : (Finset.univ : Finset (Fin C)).Nonempty :=
  ⟨⟨0, Nat.pos_of_ne_zero (NeZero.ne C)⟩, Finset.mem_univ _⟩

/-- Row maximum: `np.max(x, axis=1)` restricted to a single row. -/
noncomputable def rowMax {C : ℕ} [NeZero C] (x : Fin C → ℝ) : ℝ :=
  Finset.univ.sup' univFinNonempty x

/-- Source `softmax`: shift each row by its maximum, exponentiate, normalize. -/
noncomputable def softmax {N C : ℕ} [NeZero C] (x : Mat N C) : Mat N C :=
  fun i j => Real.exp (x i j - rowMax (x i)) / ∑ c, Real.exp (x i c - rowMax (x i))

/-- Source `logsoftmax`: `z - log(sum(exp(z)))` with `z` the max-shifted row. -/
noncomputable def logsoftmax {N C : ℕ} [NeZero C] (x : Mat N C) : Mat N C :=
  fun i j => (x i j - rowMax (x i)) - Real.log (∑ c, Real.exp (x i c - rowMax (x i)))

open Classical in
/-- Source `hardmax`: equality mask against the row maximum, divided by the
number of maximal entries in the row. -/
noncomputable def hardmax {N C : ℕ} [NeZero C] (Z : Mat N C) : Mat N C :=
  fun i j => (if Z i j = rowMax (Z i) then (1 : ℝ) else 0) /
    ∑ c, (if Z i c = rowMax (Z i) then (1 : ℝ) else 0)

/-- Python exceptions observable from the modelled code paths. -/
inductive PyError where
  | attributeError
  | notFittedError
  | indexError
  | convergenceFailure
deriving DecidableEq

/-- Source `index2bin`: `v_bin[np.arange(n), vector] = 1` on an all-zero
`n × dim` float matrix.  Numpy raises `IndexError` when some index lies
outside `[-dim, dim)`; indices in `[-dim, 0)` wrap around (numpy negative
indexing), which is `Int.emod` by `dim`. -/
def index2bin {n : ℕ} (vector : Fin n → ℤ) (dim : ℕ) : Except PyError (Mat n dim) :=
  if ∀ i, -(dim : ℤ) ≤ vector i ∧ vector i < (dim : ℤ) then
    Except.ok (fun i j => if vector i % (dim : ℤ) = ((j : ℕ) : ℤ) then 1 else 0)
  else
    Except.error PyError.indexError

/-- Bound for the row-major flat index `d*C + c`. -/
def idxLt {D C : ℕ} (d : Fin D) (c : Fin C) : d.1 * C + c.1 < D * C := by
  have h1 : d.1 * C + c.1 < (d.1 + 1) * C := by
    have := c.2; nlinarith [c.2]
  have h2 : (d.1 + 1) * C ≤ D * C := Nat.mul_le_mul_right C d.2
  omega

/-- A flat index forces the number of columns to be positive. -/
def colPos {D C : ℕ} (k : Fin (D * C)) : 0 < C := by
  rcases Nat.eq_zero_or_pos C with h | h
  · exact absurd k.2 (by simp [h])
  · exact h

/-- Row of a flat index under row-major `reshape((D, C))`. -/
def rowIdx {D C : ℕ} (k : Fin (D * C)) : Fin D :=
  ⟨k.1 / C, (Nat.div_lt_iff_lt_mul (colPos k)).mpr k.2⟩

/-- Column of a flat index under row-major `reshape((D, C))`. -/
def colIdx {D C : ℕ} (k : Fin (D * C)) : Fin C :=
  ⟨k.1 % C, Nat.mod_lt _ (colPos k)⟩

/-- `w.reshape((D, C))`, row-major. -/
def reshape {D C : ℕ} (w : Fin (D * C) → ℝ) : Mat D C :=
  fun d c => w ⟨d.1 * C + c.1, idxLt d c⟩

/-- `M.reshape((D*C,))`, row-major. -/
def flatten {D C : ℕ} (M : Mat D C) : Fin (D * C) → ℝ :=
  fun k => M (rowIdx k) (colIdx k)

/-- Source `logLoss`: reshape `w`, form `logp = logsoftmax(X·W2)`; in `OSL`
mode resolve `D = hardmax(T*p)` with `p = exp(logp)` and return
`-sum(D*logp)`; otherwise return `-sum(T*logp)` (no bias term). -/
noncomputable def logLoss {N D C : ℕ} [NeZero C] (method : String)
    (w : Fin (D * C) → ℝ) (X : Mat N D) (T : Mat N C) : ℝ :=
  let W2 := reshape w
  let logp := logsoftmax (matmul X W2)
  if method = "OSL" then
    let p : Mat N C := fun i j => Real.exp (logp i j)
    let Dm := hardmax (emul T p);
    -(∑ i, ∑ j, Dm i j * logp i j)
  else
    -(∑ i, ∑ j, T i j * logp i j)

/-- Source `gradLogLoss`: reshape `w`, form `p = softmax(X·W2)`; in `OSL`
mode return `X.T·(p - hardmax(T*p))`, otherwise `X.T·(p - T)`, flattened. -/
noncomputable def gradLogLoss {N D C : ℕ} [NeZero C] (method : String)
    (w : Fin (D * C) → ℝ) (X : Mat N D) (T : Mat N C) : Fin (D * C) → ℝ :=
  let W2 := reshape w
  let p := softmax (matmul X W2)
  if method = "OSL" then
    flatten (matmul (transp X) (p - hardmax (emul T p)))
  else
    flatten (matmul (transp X) (p - T))

/-- One iteration of source `gd`: flatten `W`, evaluate `gradLogLoss`,
reshape the gradient back and do `W -= rho*G`. -/
noncomputable def gdStep {N D C : ℕ} [NeZero C] (method : String)
    (X : Mat N D) (T : Mat N C) (rho : ℝ) (W : Mat D C) : Mat D C :=
  W - rho • reshape (gradLogLoss method (flatten W) X T)

/-- Source `gd` loop: exactly `n_it` iterations of `gdStep`, starting from
the randomly drawn matrix `W` (passed explicitly as the realized draw). -/
noncomputable def gd {N D C : ℕ} [NeZero C] (method : String)
    (X : Mat N D) (T : Mat N C) (rho : ℝ) : ℕ → Mat D C → Mat D C
  | 0, W => W
  | n + 1, W => gd method X T rho n (gdStep method X T rho W)

/-- One iteration of source `gd2`: recompute `p = softmax(X·W)` and do
`W += rho*X.T·(D - p)` in `OSL` mode, `W += rho*X.T·(T - p)` otherwise. -/
noncomputable def gd2Step {N D C : ℕ} [NeZero C] (method : String)
    (X : Mat N D) (T : Mat N C) (rho : ℝ) (W : Mat D C) : Mat D C :=
  let p := softmax (matmul X W)
  if method = "OSL" then
    W + rho • matmul (transp X) (hardmax (emul T p) - p)
  else
    W + rho • matmul (transp X) (T - p)

/-- Source `gd2` loop: exactly `n_it` iterations of `gd2Step`. -/
noncomputable def gd2 {N D C : ℕ} [NeZero C] (method : String)
    (X : Mat N D) (T : Mat N C) (rho : ℝ) : ℕ → Mat D C → Mat D C
  | 0, W => W
  | n + 1, W => gd2 method X T rho n (gd2Step method X T rho W)

/-- Result record of `scipy.optimize.minimize`: final point, success flag,
status code and diagnostic message. -/
structure OptResult (D C : ℕ) where
  x : Fin (D * C) → ℝ
  success : Bool
  status : ℤ
  message : String

/-- State of a `WeakLogisticRegression` object: constructor configuration
plus the optional learned attribute `W` (absent until `fit` completes). -/
structure WLRState (D C : ℕ) where
  method : String
  optimizer : String
  rho : ℝ
  n_it : ℕ
  W : Option (Mat D C)

/-- Argument `Y` of `fit`: either a 1-D integer index array or an already
2-D target matrix. -/
inductive Labels (N C : ℕ) where
  | oneD : (Fin N → ℤ) → Labels N C
  | twoD : Mat N C → Labels N C

/-- Label encoding step of `fit`: 1-D labels go through `index2bin`,
2-D labels are used as-is. -/
def encodeT {N : ℕ} (C : ℕ) (Y : Labels N C) : Except PyError (Mat N C) :=
  match Y with
  | Labels.oneD v => index2bin v C
  | Labels.twoD T => Except.ok T

/-- Source `fit`: encode labels, then dispatch on the `optimizer` string.
`'GD'` runs `gd` from the realized random draw `Winit`; `'GD2'` runs `gd2`;
any other string calls the external minimizer on `logLoss`/`gradLogLoss`
bound to `X, T`, started at `w0`, and stores `res.x` reshaped — the
`success`/`status`/`message` fields are only printed, never acted on. -/
noncomputable def fit {N D C : ℕ} [NeZero C] (s : WLRState D C)
    (X : Mat N D) (Y : Labels N C) (Winit : Mat D C) (w0 : Fin (D * C) → ℝ)
    (minimize : ((Fin (D * C) → ℝ) → ℝ) → ((Fin (D * C) → ℝ) → (Fin (D * C) → ℝ)) →
      (Fin (D * C) → ℝ) → OptResult D C) :
    Except PyError (WLRState D C) :=
  match encodeT C Y with
  | Except.error e => Except.error e
  | Except.ok T =>
    if s.optimizer = "GD" then
      Except.ok { s with W := some (gd s.method X T s.rho s.n_it Winit) }
    else if s.optimizer = "GD2" then
      Except.ok { s with W := some (gd2 s.method X T s.rho s.n_it Winit) }
    else
      let res := minimize (fun w => logLoss s.method w X T)
        (fun w => gradLogLoss s.method w X T) w0
      Except.ok { s with W := some (reshape res.x) }

open Classical in
/-- `np.argmax` over one row: the smallest index attaining the row maximum. -/
noncomputable def argmaxRow {C : ℕ} [NeZero C] (x : Fin C → ℝ) : Fin C :=
  (Finset.univ.filter fun j => x j = rowMax x).min' (by
    obtain ⟨b, _, hb⟩ := Finset.exists_mem_eq_sup' univFinNonempty x
    exact ⟨b, Finset.mem_filter.mpr ⟨Finset.mem_univ _, hb.symm⟩⟩)

/-- Source `predict`: reading the attribute `self.W` before any `fit` call
raises `AttributeError`; otherwise return the row argmax of `softmax(X·W)`. -/
noncomputable def predict {M D C : ℕ} [NeZero C] (s : WLRState D C) (X : Mat M D) :
    Except PyError (Fin M → Fin C) :=
  match s.W with
  | none => Except.error PyError.attributeError
  | some W => Except.ok (fun i => argmaxRow (softmax (matmul X W) i))

/-- Source `predict_proba`: `AttributeError` before `fit`, otherwise the
full `softmax(X·W)` matrix. -/
noncomputable def predict_proba {M D C : ℕ} [NeZero C] (s : WLRState D C) (X : Mat M D) :
    Except PyError (Mat M C) :=
  match s.W with
  | none => Except.error PyError.attributeError
  | some W => Except.ok (softmax (matmul X W))

open Classical in
/-- Number of entries of a row equal to the row maximum. -/
noncomputable def maxCount {C : ℕ} [NeZero C] (x : Fin C → ℝ) : ℕ :=
  (Finset.univ.filter fun j => x j = rowMax x).card

/-- Concrete 1×1 feature matrix used to exercise the StandardWeak gradient. -/
def Xc1 : Mat 1 1 := fun _ _ => 1

/-- Concrete weak-label target row with sum 2 (not a probability row). -/
def Tc1 : Mat 1 2 := fun _ j => if j = 0 then 2 else 0

/-- Concrete one-hot target row (sums to 1). -/
def Tc1h : Mat 1 2 := fun _ j => if j = 0 then 1 else 0

/-- Concrete zero weight vector of length 1·2. -/
def wc1 : Fin (1 * 2) → ℝ := fun _ => 0

/-- Concrete first flat weight coordinate. -/
def kc1 : Fin (1 * 2) := ⟨0, by norm_num⟩

section BasicLemmas

theorem sumexp_pos {C : ℕ} [NeZero C] (x : Fin C → ℝ) : 0 < ∑ c, Real.exp (x c) :=
  Finset.sum_pos (fun c _ => Real.exp_pos (x c)) univFinNonempty

theorem sumexp_ne_zero {C : ℕ} [NeZero C] (x : Fin C → ℝ) :
    (∑ c, Real.exp (x c)) ≠ 0 :=
  ne_of_gt (sumexp_pos x)

theorem sum_exp_shift {C : ℕ} [NeZero C] (x : Fin C → ℝ) (M : ℝ) :
    ∑ c, Real.exp (x c - M) = (∑ c, Real.exp (x c)) * Real.exp (-M) := by
  rw [Finset.sum_mul]
  refine Finset.sum_congr rfl fun c _ => ?_
  rw [← Real.exp_add]
  ring_nf

/-- The max shift in `logsoftmax` cancels exactly over the reals. -/
theorem logsoftmax_eq {N C : ℕ} [NeZero C] (x : Mat N C) (i : Fin N) (j : Fin C) :
    logsoftmax x i j = x i j - Real.log (∑ c, Real.exp (x i c)) := by
  unfold logsoftmax
  rw [sum_exp_shift (x i) (rowMax (x i)),
    Real.log_mul (sumexp_ne_zero (x i)) (Real.exp_ne_zero _), Real.log_exp]
  ring

/-- The max shift in `softmax` cancels exactly over the reals. -/
theorem softmax_eq {N C : ℕ} [NeZero C] (x : Mat N C) (i : Fin N) (j : Fin C) :
    softmax x i j = Real.exp (x i j) / ∑ c, Real.exp (x i c) := by
  unfold softmax
  rw [sum_exp_shift (x i) (rowMax (x i)), Real.exp_sub]
  have h := sumexp_ne_zero (x i)
  have he := Real.exp_ne_zero (rowMax (x i))
  field_simp
  rw [← mul_assoc, mul_right_comm, ← Real.exp_add]
  simp

theorem exp_logsoftmax {N C : ℕ} [NeZero C] (x : Mat N C) (i : Fin N) (j : Fin C) :
    Real.exp (logsoftmax x i j) = softmax x i j := by
  rw [logsoftmax_eq, softmax_eq, Real.exp_sub, Real.exp_log (sumexp_pos (x i))]

theorem flatten_reshape {D C : ℕ} (w : Fin (D * C) → ℝ) : flatten (reshape w) = w := by
  funext k
  show w ⟨(rowIdx k).1 * C + (colIdx k).1, idxLt _ _⟩ = w k
  congr 1
  apply Fin.ext
  show k.1 / C * C + k.1 % C = k.1
  rw [mul_comm]
  exact Nat.div_add_mod k.1 C

theorem rowIdx_mk {D C : ℕ} (d : Fin D) (c : Fin C) :
    rowIdx ⟨d.1 * C + c.1, idxLt d c⟩ = d := by
  have hC : 0 < C := lt_of_le_of_lt (Nat.zero_le _) c.2
  apply Fin.ext
  show (d.1 * C + c.1) / C = d.1
  rw [mul_comm, Nat.mul_add_div hC, Nat.div_eq_of_lt c.2, Nat.add_zero]

theorem colIdx_mk {D C : ℕ} (d : Fin D) (c : Fin C) :
    colIdx ⟨d.1 * C + c.1, idxLt d c⟩ = c := by
  apply Fin.ext
  show (d.1 * C + c.1) % C = c.1
  rw [mul_comm, Nat.mul_add_mod, Nat.mod_eq_of_lt c.2]

theorem reshape_flatten {D C : ℕ} (M : Mat D C) : reshape (flatten M) = M := by
  funext d c
  show M (rowIdx ⟨d.1 * C + c.1, idxLt d c⟩) (colIdx ⟨d.1 * C + c.1, idxLt d c⟩) = M d c
  rw [rowIdx_mk, colIdx_mk]

theorem mk_eq_iff {D C : ℕ} (d : Fin D) (c : Fin C) (k : Fin (D * C)) :
    (⟨d.1 * C + c.1, idxLt d c⟩ : Fin (D * C)) = k ↔ d = rowIdx k ∧ c = colIdx k := by
  constructor
  · intro h
    rw [← h]
    exact ⟨(rowIdx_mk d c).symm, (colIdx_mk d c).symm⟩
  · rintro ⟨rfl, rfl⟩
    apply Fin.ext
    show (rowIdx k).1 * C + (colIdx k).1 = k.1
    rw [mul_comm]
    exact Nat.div_add_mod k.1 C

theorem logLoss_not_osl {N D C : ℕ} [NeZero C] {method : String} (hm : method ≠ "OSL")
    (w : Fin (D * C) → ℝ) (X : Mat N D) (T : Mat N C) :
    logLoss method w X T =
      -(∑ i, ∑ j, T i j * logsoftmax (matmul X (reshape w)) i j) := by
  simp only [logLoss]
  rw [if_neg hm]

theorem logLoss_osl {N D C : ℕ} [NeZero C]
    (w : Fin (D * C) → ℝ) (X : Mat N D) (T : Mat N C) :
    logLoss "OSL" w X T =
      -(∑ i, ∑ j, hardmax (emul T (softmax (matmul X (reshape w)))) i j *
        logsoftmax (matmul X (reshape w)) i j) := by
  have hp : (fun i j => Real.exp (logsoftmax (matmul X (reshape w)) i j)) =
      softmax (matmul X (reshape w)) := by
    funext i j
    exact exp_logsoftmax _ i j
  simp only [logLoss]
  rw [if_true, hp]

theorem gradLogLoss_not_osl {N D C : ℕ} [NeZero C] {method : String} (hm : method ≠ "OSL")
    (w : Fin (D * C) → ℝ) (X : Mat N D) (T : Mat N C) :
    gradLogLoss method w X T =
      flatten (matmul (transp X) (softmax (matmul X (reshape w)) - T)) := by
  simp only [gradLogLoss]
  rw [if_neg hm]

theorem gradLogLoss_osl {N D C : ℕ} [NeZero C]
    (w : Fin (D * C) → ℝ) (X : Mat N D) (T : Mat N C) :
    gradLogLoss "OSL" w X T =
      flatten (matmul (transp X) (softmax (matmul X (reshape w)) -
        hardmax (emul T (softmax (matmul X (reshape w)))))) := by
  simp only [gradLogLoss]
  rw [if_true]

end BasicLemmas

section HardmaxLemmas

theorem exists_rowMax {C : ℕ} [NeZero C] (x : Fin C → ℝ) : ∃ j, x j = rowMax x := by
  obtain ⟨b, _, hb⟩ := Finset.exists_mem_eq_sup' univFinNonempty x
  exact ⟨b, hb.symm⟩

theorem le_rowMax {C : ℕ} [NeZero C] (x : Fin C → ℝ) (j : Fin C) : x j ≤ rowMax x :=
  Finset.le_sup' x (Finset.mem_univ j)

open Classical in
theorem maxCount_pos {C : ℕ} [NeZero C] (x : Fin C → ℝ) : 0 < maxCount x := by
  obtain ⟨j, hj⟩ := exists_rowMax x
  unfold maxCount
  exact Finset.card_pos.mpr ⟨j, Finset.mem_filter.mpr ⟨Finset.mem_univ _, hj⟩⟩

open Classical in
theorem indicator_sum {C : ℕ} [NeZero C] (x : Fin C → ℝ) :
    ∑ c, (if x c = rowMax x then (1 : ℝ) else 0) = (maxCount x : ℝ) := by
  unfold maxCount
  simp [Finset.sum_boole]

open Classical in
theorem hardmax_apply {N C : ℕ} [NeZero C] (Z : Mat N C) (i : Fin N) (j : Fin C) :
    hardmax Z i j =
      (if Z i j = rowMax (Z i) then (1 : ℝ) else 0) / (maxCount (Z i) : ℝ) := by
  unfold hardmax
  rw [indicator_sum]

theorem maxCount_cast_ne_zero {C : ℕ} [NeZero C] (x : Fin C → ℝ) :
    ((maxCount x : ℝ)) ≠ 0 := by
  have h := maxCount_pos x
  exact_mod_cast Nat.pos_iff_ne_zero.mp h

open Classical in
theorem hardmax_row_sum {N C : ℕ} [NeZero C] (Z : Mat N C) (i : Fin N) :
    ∑ j, hardmax Z i j = 1 := by
  have hcnt := maxCount_cast_ne_zero (Z i)
  have h : ∀ j ∈ Finset.univ, hardmax Z i j =
      (if Z i j = rowMax (Z i) then (1 : ℝ) else 0) / (maxCount (Z i) : ℝ) :=
    fun j _ => hardmax_apply Z i j
  rw [Finset.sum_congr rfl h, ← Finset.sum_div, indicator_sum, div_self hcnt]

open Classical in
theorem hardmax_entry {N C : ℕ} [NeZero C] (Z : Mat N C) (i : Fin N) (j : Fin C) :
    hardmax Z i j = 0 ∨ hardmax Z i j = 1 / (maxCount (Z i) : ℝ) := by
  rw [hardmax_apply]
  by_cases h : Z i j = rowMax (Z i)
  · right
    rw [if_pos h]
  · left
    rw [if_neg h, zero_div]

open Classical in
theorem hardmax_unique_max {N C : ℕ} [NeZero C] (Z : Mat N C) (i : Fin N) (j₀ : Fin C)
    (h : ∀ j, j ≠ j₀ → Z i j < Z i j₀) :
    hardmax Z i j₀ = 1 ∧ ∀ j, j ≠ j₀ → hardmax Z i j = 0 := by
  have hmax : rowMax (Z i) = Z i j₀ := by
    refine le_antisymm ?_ (le_rowMax (Z i) j₀)
    obtain ⟨b, hb⟩ := exists_rowMax (Z i)
    by_cases hbj : b = j₀
    · rw [← hb, hbj]
    · rw [← hb]
      exact le_of_lt (h b hbj)
  have hfilter : (Finset.univ.filter fun j => Z i j = rowMax (Z i)) = {j₀} := by
    ext j
    simp only [Finset.mem_filter, Finset.mem_univ, true_and, Finset.mem_singleton]
    constructor
    · intro hj
      by_contra hne
      rw [hmax] at hj
      exact (ne_of_lt (h j hne)) hj
    · intro hj
      rw [hj, hmax]
  have hcount : maxCount (Z i) = 1 := by
    unfold maxCount
    rw [hfilter, Finset.card_singleton]
  constructor
  · rw [hardmax_apply, if_pos hmax.symm, hcount]
    norm_num
  · intro j hj
    rw [hardmax_apply, if_neg, zero_div]
    rw [hmax]
    exact ne_of_lt (h j hj)

open Classical in
theorem hardmax_const_row {N C : ℕ} [NeZero C] (Z : Mat N C) (i : Fin N)
    (h : ∀ j j', Z i j = Z i j') (j : Fin C) :
    hardmax Z i j = 1 / (C : ℝ) := by
  have hall : ∀ j', Z i j' = rowMax (Z i) := by
    intro j'
    obtain ⟨b, hb⟩ := exists_rowMax (Z i)
    rw [← hb]
    exact h j' b
  have hfilter : (Finset.univ.filter fun j => Z i j = rowMax (Z i)) = Finset.univ := by
    ext j'
    simp [hall j']
  have hcount : maxCount (Z i) = C := by
    unfold maxCount
    rw [hfilter, Finset.card_univ, Fintype.card_fin]
  rw [hardmax_apply, if_pos (hall j), hcount]

end HardmaxLemmas

section DerivativeLemmas

theorem matmul_reshape_single {N D C : ℕ} (X : Mat N D) (w : Fin (D * C) → ℝ)
    (k : Fin (D * C)) (t : ℝ) (i : Fin N) (c : Fin C) :
    matmul X (reshape (w + t • (Pi.single k 1 : Fin (D * C) → ℝ))) i c =
      matmul X (reshape w) i c + t * (if c = colIdx k then X i (rowIdx k) else 0) := by
  unfold matmul reshape
  simp only [Pi.add_apply, Pi.smul_apply, smul_eq_mul, Pi.single_apply, mul_one, mul_add,
    Finset.sum_add_distrib]
  congr 1
  have hcond : ∀ d : Fin D, ((⟨d.1 * C + c.1, idxLt d c⟩ : Fin (D * C)) = k) =
      (d = rowIdx k ∧ c = colIdx k) := fun d => propext (mk_eq_iff d c k)
  by_cases hc : c = colIdx k
  · subst hc
    simp only [hcond, eq_self_iff_true, and_true]
    simp [mul_ite, Finset.sum_ite_eq', mul_comm]
  · simp only [hcond]
    simp [hc]

theorem hasDerivAt_neg_sum_cross {N C : ℕ} [NeZero C] (T S A : Mat N C) :
    HasDerivAt (fun t : ℝ => -(∑ i, ∑ j, T i j * ((S i j + t * A i j) -
        Real.log (∑ c, Real.exp (S i c + t * A i c)))))
      (-(∑ i, ∑ j, T i j * (A i j -
        (∑ c, Real.exp (S i c) * A i c) / (∑ c, Real.exp (S i c))))) 0 := by
  have haff : ∀ (i : Fin N) (j : Fin C),
      HasDerivAt (fun t : ℝ => S i j + t * A i j) (A i j) 0 := by
    intro i j
    simpa using ((hasDerivAt_id (0 : ℝ)).mul_const (A i j)).const_add (S i j)
  have hsum : ∀ i, HasDerivAt (fun t : ℝ => ∑ c, Real.exp (S i c + t * A i c))
      (∑ c, Real.exp (S i c) * A i c) 0 := by
    intro i
    have h := HasDerivAt.sum (fun c (_ : c ∈ Finset.univ) => (haff i c).exp)
    simpa using h
  have hlog : ∀ i, HasDerivAt (fun t : ℝ => Real.log (∑ c, Real.exp (S i c + t * A i c)))
      ((∑ c, Real.exp (S i c) * A i c) / (∑ c, Real.exp (S i c))) 0 := by
    intro i
    have hne : (∑ c, Real.exp (S i c + 0 * A i c)) ≠ 0 := by
      simpa using sumexp_ne_zero (fun c => S i c)
    have h := (hsum i).log hne
    simpa using h
  have hterm : ∀ (i : Fin N) (j : Fin C),
      HasDerivAt (fun t : ℝ => T i j * ((S i j + t * A i j) -
        Real.log (∑ c, Real.exp (S i c + t * A i c))))
      (T i j * (A i j - (∑ c, Real.exp (S i c) * A i c) / (∑ c, Real.exp (S i c)))) 0 :=
    fun i j => ((haff i j).sub (hlog i)).const_mul (T i j)
  exact (HasDerivAt.sum (fun i (_ : i ∈ Finset.univ) =>
    HasDerivAt.sum (fun j (_ : j ∈ Finset.univ) => hterm i j))).neg

theorem logLoss_hasDerivAt {N D C : ℕ} [NeZero C] (X : Mat N D) (T : Mat N C)
    (w : Fin (D * C) → ℝ) (k : Fin (D * C)) :
    HasDerivAt (fun t : ℝ => logLoss "WL" (w + t • (Pi.single k 1 : Fin (D * C) → ℝ)) X T)
      (∑ i, X i (rowIdx k) * (softmax (matmul X (reshape w)) i (colIdx k) * (∑ j, T i j)
        - T i (colIdx k))) 0 := by
  have hfun : (fun t : ℝ => logLoss "WL" (w + t • (Pi.single k 1 : Fin (D * C) → ℝ)) X T) =
      (fun t : ℝ => -(∑ i, ∑ j, T i j * ((matmul X (reshape w) i j +
          t * (if j = colIdx k then X i (rowIdx k) else 0)) -
        Real.log (∑ c, Real.exp (matmul X (reshape w) i c +
          t * (if c = colIdx k then X i (rowIdx k) else 0)))))) := by
    funext t
    rw [logLoss_not_osl (by decide)]
    congr 1
    refine Finset.sum_congr rfl fun i _ => Finset.sum_congr rfl fun j _ => ?_
    rw [logsoftmax_eq]
    simp only [matmul_reshape_single]
  rw [hfun]
  have h := hasDerivAt_neg_sum_cross T (matmul X (reshape w))
      (fun i c => if c = colIdx k then X i (rowIdx k) else 0)
  convert h using 1
  rw [← Finset.sum_neg_distrib]
  refine Finset.sum_congr rfl fun i _ => ?_
  rw [softmax_eq]
  simp only [mul_ite, mul_zero, mul_one, Finset.sum_ite_eq', Finset.mem_univ, if_true,
    mul_sub, Finset.sum_sub_distrib, ← Finset.sum_mul]
  ring

end DerivativeLemmas

section OptimizerLemmas

theorem matmul_sub_neg {N D C : ℕ} (A : Mat D N) (B Cm : Mat N C) :
    matmul A (B - Cm) = -(matmul A (Cm - B)) := by
  funext d c
  show (∑ i, A d i * (B - Cm) i c) = -(∑ i, A d i * (Cm - B) i c)
  rw [← Finset.sum_neg_distrib]
  refine Finset.sum_congr rfl fun i _ => ?_
  have hB : (B - Cm) i c = B i c - Cm i c := rfl
  have hC : (Cm - B) i c = Cm i c - B i c := rfl
  rw [hB, hC]
  ring

/-- The two built-in gradient-descent updates coincide exactly. -/
theorem gdStep_eq_gd2Step {N D C : ℕ} [NeZero C] (method : String) (X : Mat N D)
    (T : Mat N C) (rho : ℝ) (W : Mat D C) :
    gdStep method X T rho W = gd2Step method X T rho W := by
  by_cases hm : method = "OSL"
  · subst hm
    unfold gdStep
    rw [gradLogLoss_osl, reshape_flatten W, reshape_flatten]
    simp only [gd2Step]
    rw [if_true, matmul_sub_neg, smul_neg, sub_neg_eq_add]
  · unfold gdStep
    rw [gradLogLoss_not_osl hm, reshape_flatten W, reshape_flatten]
    simp only [gd2Step]
    rw [if_neg hm, matmul_sub_neg, smul_neg, sub_neg_eq_add]

theorem gd_eq_gd2 {N D C : ℕ} [NeZero C] (method : String) (X : Mat N D)
    (T : Mat N C) (rho : ℝ) :
    ∀ (n : ℕ) (W : Mat D C), gd method X T rho n W = gd2 method X T rho n W := by
  intro n
  induction n with
  | zero => intro W; rfl
  | succ n ih =>
    intro W
    simp only [gd, gd2]
    rw [gdStep_eq_gd2Step]
    exact ih _

theorem gd_eq_iterate {N D C : ℕ} [NeZero C] (method : String) (X : Mat N D)
    (T : Mat N C) (rho : ℝ) :
    ∀ (n : ℕ) (W : Mat D C), gd method X T rho n W = (gdStep method X T rho)^[n] W := by
  intro n
  induction n with
  | zero => intro W; rfl
  | succ n ih =>
    intro W
    simp only [gd]
    rw [Function.iterate_succ_apply]
    exact ih _

theorem gd2Step_of_ne {N D C : ℕ} [NeZero C] {method : String} (hm : method ≠ "OSL")
    (X : Mat N D) (T : Mat N C) (rho : ℝ) (W : Mat D C) :
    gd2Step method X T rho W = gd2Step "WL" X T rho W := by
  unfold gd2Step
  rw [if_neg hm, if_neg (by decide : ("WL" : String) ≠ "OSL")]

theorem gd2_of_ne {N D C : ℕ} [NeZero C] {method : String} (hm : method ≠ "OSL")
    (X : Mat N D) (T : Mat N C) (rho : ℝ) :
    ∀ (n : ℕ) (W : Mat D C), gd2 method X T rho n W = gd2 "WL" X T rho n W := by
  intro n
  induction n with
  | zero => intro W; rfl
  | succ n ih =>
    intro W
    simp only [gd2]
    rw [gd2Step_of_ne hm]
    exact ih _

theorem fit_gd {N D C : ℕ} [NeZero C] (s : WLRState D C) (X : Mat N D) (Y : Labels N C)
    (T : Mat N C) (Winit : Mat D C) (w0 : Fin (D * C) → ℝ)
    (minimize : ((Fin (D * C) → ℝ) → ℝ) → ((Fin (D * C) → ℝ) → (Fin (D * C) → ℝ)) →
      (Fin (D * C) → ℝ) → OptResult D C)
    (hopt : s.optimizer = "GD") (hT : encodeT C Y = Except.ok T) :
    fit s X Y Winit w0 minimize =
      Except.ok { s with W := some (gd s.method X T s.rho s.n_it Winit) } := by
  simp only [fit, hT]
  rw [if_pos hopt]

end OptimizerLemmas

section Claims

/-- C2: in OSL mode both the loss and the gradient recompute
`p = softmax(X·W)` and `D = hardmax(T ⊙ p)` from the current weight vector
`w` at every evaluation (the right-hand sides below are functions of the
`w` being evaluated, not of any fixed initial weights), and they return
`L = -sum(D ⊙ logSoftmax(X·W))` and `G = Xᵀ·(p - D)` flattened. -/
theorem claim_C2_osl_recompute {N D C : ℕ} [NeZero C] (w : Fin (D * C) → ℝ)
    (X : Mat N D) (T : Mat N C) :
    logLoss "OSL" w X T =
      -(∑ i, ∑ j, hardmax (emul T (softmax (matmul X (reshape w)))) i j *
        logsoftmax (matmul X (reshape w)) i j) ∧
    gradLogLoss "OSL" w X T =
      flatten (matmul (transp X) (softmax (matmul X (reshape w)) -
        hardmax (emul T (softmax (matmul X (reshape w)))))) :=
  ⟨logLoss_osl w X T, gradLogLoss_osl w X T⟩

/-- Witness for C2 at a concrete instance. -/
theorem claim_C2_osl_recompute_witness :
    logLoss "OSL" ((fun _ => 0) : Fin (1 * 2) → ℝ) ((fun _ _ => 0) : Mat 1 1)
        ((fun _ _ => 0) : Mat 1 2) =
      -(∑ i, ∑ j, hardmax (emul ((fun _ _ => 0) : Mat 1 2)
          (softmax (matmul ((fun _ _ => 0) : Mat 1 1)
            (reshape ((fun _ => 0) : Fin (1 * 2) → ℝ))))) i j *
        logsoftmax (matmul ((fun _ _ => 0) : Mat 1 1)
          (reshape ((fun _ => 0) : Fin (1 * 2) → ℝ))) i j) ∧
    gradLogLoss "OSL" ((fun _ => 0) : Fin (1 * 2) → ℝ) ((fun _ _ => 0) : Mat 1 1)
        ((fun _ _ => 0) : Mat 1 2) =
      flatten (matmul (transp ((fun _ _ => 0) : Mat 1 1))
        (softmax (matmul ((fun _ _ => 0) : Mat 1 1)
          (reshape ((fun _ => 0) : Fin (1 * 2) → ℝ))) -
        hardmax (emul ((fun _ _ => 0) : Mat 1 2)
          (softmax (matmul ((fun _ _ => 0) : Mat 1 1)
            (reshape ((fun _ => 0) : Fin (1 * 2) → ℝ))))))) :=
  claim_C2_osl_recompute _ _ _

/-- C3: on common data, parameters and the same random initial weight
matrix, the accumulated-gradient loop `gd` and the closed-form loop `gd2`
produce identical weight matrices after every iteration count, because the
update `W - rho·Xᵀ(p - T)` equals `W + rho·Xᵀ(T - p)` exactly (and likewise
with `hardmax(T ⊙ p)` in place of `T` in OSL mode). -/
theorem claim_C3_gd_gd2_identical {N D C : ℕ} [NeZero C] (method : String)
    (X : Mat N D) (T : Mat N C) (rho : ℝ) (n : ℕ) (W0 : Mat D C) :
    gd method X T rho n W0 = gd2 method X T rho n W0 ∧
    gdStep method X T rho W0 = gd2Step method X T rho W0 :=
  ⟨gd_eq_gd2 method X T rho n W0, gdStep_eq_gd2Step method X T rho W0⟩

/-- Witness for C3 at a concrete instance. -/
theorem claim_C3_gd_gd2_identical_witness :
    gd "WL" ((fun _ _ => 0) : Mat 1 1) ((fun _ _ => 0) : Mat 1 2) 1 2
        ((fun _ _ => 0) : Mat 1 2) =
      gd2 "WL" ((fun _ _ => 0) : Mat 1 1) ((fun _ _ => 0) : Mat 1 2) 1 2
        ((fun _ _ => 0) : Mat 1 2) ∧
    gdStep "WL" ((fun _ _ => 0) : Mat 1 1) ((fun _ _ => 0) : Mat 1 2) 1
        ((fun _ _ => 0) : Mat 1 2) =
      gd2Step "WL" ((fun _ _ => 0) : Mat 1 1) ((fun _ _ => 0) : Mat 1 2) 1
        ((fun _ _ => 0) : Mat 1 2) :=
  claim_C3_gd_gd2_identical "WL" _ _ 1 2 _

/-- C7: every row of `hardmax` sums to 1; every entry is 0 or the single
constant `1/k` where `k = maxCount` is the number of entries of the row
equal to the row maximum; and a row with a unique (strict) maximum is sent
to the one-hot vector of its argmax. -/
theorem claim_C7_hardmax_rows {N C : ℕ} [NeZero C] (Z : Mat N C) (i : Fin N) :
    (∑ j, hardmax Z i j = 1) ∧
    (∀ j, hardmax Z i j = 0 ∨ hardmax Z i j = 1 / (maxCount (Z i) : ℝ)) ∧
    (∀ j₀, (∀ j, j ≠ j₀ → Z i j < Z i j₀) →
      hardmax Z i j₀ = 1 ∧ ∀ j, j ≠ j₀ → hardmax Z i j = 0) :=
  ⟨hardmax_row_sum Z i, fun j => hardmax_entry Z i j,
    fun j₀ h => hardmax_unique_max Z i j₀ h⟩

/-- Witness for C7: the row `(1, 0)` sums to 1 under hardmax and maps to
the one-hot of its unique argmax. -/
theorem claim_C7_hardmax_rows_witness :
    (∑ j, hardmax ((fun _ j => if j = 0 then 1 else 0) : Mat 1 2) 0 j = 1) ∧
    hardmax ((fun _ j => if j = 0 then 1 else 0) : Mat 1 2) 0 0 = 1 := by
  refine ⟨(claim_C7_hardmax_rows _ 0).1, ?_⟩
  have h := (claim_C7_hardmax_rows ((fun _ j => if j = 0 then 1 else 0) : Mat 1 2) 0).2.2 0 ?_
  · exact h.1
  · intro j hj
    fin_cases j
    · exact absurd rfl hj
    · norm_num

/-- C9: any method tag other than the exact string OSL (for example the
unknown tag VLL) makes `logLoss`, `gradLogLoss`, the `gd2` update step and
the whole `gd2` loop behave exactly as in the default StandardWeak branch;
nothing validates or rejects the tag. -/
theorem claim_C9_unknown_method_default {N D C : ℕ} [NeZero C] {method : String}
    (hm : method ≠ "OSL") (w : Fin (D * C) → ℝ) (X : Mat N D) (T : Mat N C)
    (rho : ℝ) (W : Mat D C) (n : ℕ) :
    logLoss method w X T = logLoss "WL" w X T ∧
    gradLogLoss method w X T = gradLogLoss "WL" w X T ∧
    gd2Step method X T rho W = gd2Step "WL" X T rho W ∧
    gd2 method X T rho n W = gd2 "WL" X T rho n W := by
  have hwl : ("WL" : String) ≠ "OSL" := by decide
  exact ⟨by rw [logLoss_not_osl hm, logLoss_not_osl hwl],
    by rw [gradLogLoss_not_osl hm, gradLogLoss_not_osl hwl],
    gd2Step_of_ne hm X T rho W, gd2_of_ne hm X T rho n W⟩

/-- Witness for C9 with the unrecognized tag VLL. -/
theorem claim_C9_unknown_method_default_witness :
    ("VLL" : String) ≠ "OSL" ∧
    logLoss "VLL" ((fun _ => 0) : Fin (1 * 2) → ℝ) ((fun _ _ => 0) : Mat 1 1)
        ((fun _ _ => 0) : Mat 1 2) =
      logLoss "WL" ((fun _ => 0) : Fin (1 * 2) → ℝ) ((fun _ _ => 0) : Mat 1 1)
        ((fun _ _ => 0) : Mat 1 2) ∧
    gradLogLoss "VLL" ((fun _ => 0) : Fin (1 * 2) → ℝ) ((fun _ _ => 0) : Mat 1 1)
        ((fun _ _ => 0) : Mat 1 2) =
      gradLogLoss "WL" ((fun _ => 0) : Fin (1 * 2) → ℝ) ((fun _ _ => 0) : Mat 1 1)
        ((fun _ _ => 0) : Mat 1 2) := by
  have h := claim_C9_unknown_method_default (by decide : ("VLL" : String) ≠ "OSL")
      ((fun _ => 0) : Fin (1 * 2) → ℝ) ((fun _ _ => 0) : Mat 1 1)
      ((fun _ _ => 0) : Mat 1 2) 1 ((fun _ _ => 0) : Mat 1 2) 1
  exact ⟨by decide, h.1, h.2.1⟩

/-- C10: hardmax is total on any matrix with at least one column: the
count of row-maximal entries is at least 1, the real divisor is nonzero,
and a row with all entries equal (such as an all-zero OSL mask row) is sent
to the uniform row with `1/C` everywhere. -/
theorem claim_C10_hardmax_total {N C : ℕ} [NeZero C] (Z : Mat N C) (i : Fin N) :
    0 < maxCount (Z i) ∧
    (∑ c, (if Z i c = rowMax (Z i) then (1 : ℝ) else 0)) ≠ 0 ∧
    ((∀ j j', Z i j = Z i j') → ∀ j, hardmax Z i j = 1 / (C : ℝ)) := by
  refine ⟨maxCount_pos (Z i), ?_, fun h j => hardmax_const_row Z i h j⟩
  rw [indicator_sum]
  exact maxCount_cast_ne_zero (Z i)

/-- Witness for C10: the all-zero 1×2 row has a nonzero divisor and the
uniform hardmax value 1/2. -/
theorem claim_C10_hardmax_total_witness :
    0 < maxCount (((fun _ _ => 0) : Mat 1 2) 0) ∧
    hardmax ((fun _ _ => 0) : Mat 1 2) 0 0 = 1 / (2 : ℝ) := by
  have h := claim_C10_hardmax_total ((fun _ _ => 0) : Mat 1 2) 0
  refine ⟨h.1, ?_⟩
  have h2 := h.2.2 (fun j j' => rfl) 0
  simpa using h2

/-- C1 (amended): in StandardWeak mode the scalar loss is
`-sum(T ⊙ logSoftmax(X·W))` with `W = reshape(w)` and the returned gradient
is `Xᵀ·(softmax(X·W) - T)` flattened, with no bias term added; whenever
every row of `T` sums to 1 the returned gradient is the exact derivative of
the returned loss along every weight coordinate. -/
theorem claim_C1_standardweak_loss_grad {N D C : ℕ} [NeZero C] (w : Fin (D * C) → ℝ)
    (X : Mat N D) (T : Mat N C) (hT : ∀ i, ∑ j, T i j = 1) :
    logLoss "WL" w X T =
      -(∑ i, ∑ j, T i j * logsoftmax (matmul X (reshape w)) i j) ∧
    gradLogLoss "WL" w X T =
      flatten (matmul (transp X) (softmax (matmul X (reshape w)) - T)) ∧
    ∀ k, HasDerivAt
      (fun t : ℝ => logLoss "WL" (w + t • (Pi.single k 1 : Fin (D * C) → ℝ)) X T)
      (gradLogLoss "WL" w X T k) 0 := by
  have hwl : ("WL" : String) ≠ "OSL" := by decide
  refine ⟨logLoss_not_osl hwl w X T, gradLogLoss_not_osl hwl w X T, fun k => ?_⟩
  have h := logLoss_hasDerivAt X T w k
  have hval : (∑ i, X i (rowIdx k) * (softmax (matmul X (reshape w)) i (colIdx k) *
      (∑ j, T i j) - T i (colIdx k))) = gradLogLoss "WL" w X T k := by
    rw [gradLogLoss_not_osl hwl]
    show _ = ∑ i, transp X (rowIdx k) i *
      (softmax (matmul X (reshape w)) - T) i (colIdx k)
    refine Finset.sum_congr rfl fun i _ => ?_
    rw [hT i]
    have hsub : (softmax (matmul X (reshape w)) - T) i (colIdx k) =
        softmax (matmul X (reshape w)) i (colIdx k) - T i (colIdx k) := rfl
    have htr : transp X (rowIdx k) i = X i (rowIdx k) := rfl
    rw [hsub, htr]
    ring
  rw [← hval]
  exact h

/-- Witness for C1 with the one-hot target `Tc1h`. -/
theorem claim_C1_standardweak_loss_grad_witness :
    (∀ i, ∑ j, Tc1h i j = 1) ∧
    HasDerivAt
      (fun t : ℝ => logLoss "WL" (wc1 + t • (Pi.single kc1 1 : Fin (1 * 2) → ℝ)) Xc1 Tc1h)
      (gradLogLoss "WL" wc1 Xc1 Tc1h kc1) 0 := by
  have hT : ∀ i, ∑ j, Tc1h i j = 1 := by
    intro i
    simp [Tc1h, Fin.sum_univ_two]
  exact ⟨hT, (claim_C1_standardweak_loss_grad wc1 Xc1 Tc1h hT).2.2 kc1⟩

/-- Counterexample for C1 as stated: for the weak target `Tc1` whose row
sums to 2, the loss derivative along the first coordinate is −1 while
`gradLogLoss` returns −3/2, so the returned gradient is not the exact
gradient of the returned loss for arbitrary target matrices. -/
theorem counterexample_C1_grad_not_exact :
    ¬ HasDerivAt
      (fun t : ℝ => logLoss "WL" (wc1 + t • (Pi.single kc1 1 : Fin (1 * 2) → ℝ)) Xc1 Tc1)
      (gradLogLoss "WL" wc1 Xc1 Tc1 kc1) 0 := by
  intro hcon
  have h := logLoss_hasDerivAt Xc1 Tc1 wc1 kc1
  have hzero : matmul Xc1 (reshape wc1) = fun _ _ => (0 : ℝ) := by
    funext i c
    simp [matmul, reshape, Xc1, wc1]
  have hsm : ∀ (i : Fin 1) (j : Fin 2), softmax ((fun _ _ => 0) : Mat 1 2) i j = 1 / 2 := by
    intro i j
    rw [softmax_eq]
    norm_num [Fin.sum_univ_two]
  have hck : colIdx kc1 = (0 : Fin 2) := rfl
  have hV : (∑ i, Xc1 i (rowIdx kc1) * (softmax (matmul Xc1 (reshape wc1)) i (colIdx kc1) *
      (∑ j, Tc1 i j) - Tc1 i (colIdx kc1))) = -1 := by
    rw [hzero, Fin.sum_univ_one, hsm, hck]
    norm_num [Xc1, Tc1, Fin.sum_univ_two]
  have hg : gradLogLoss "WL" wc1 Xc1 Tc1 kc1 = -(3 / 2) := by
    rw [gradLogLoss_not_osl (by decide : ("WL" : String) ≠ "OSL")]
    show (∑ i, transp Xc1 (rowIdx kc1) i *
      (softmax (matmul Xc1 (reshape wc1)) - Tc1) i (colIdx kc1)) = -(3 / 2)
    rw [Fin.sum_univ_one]
    have hsub : (softmax (matmul Xc1 (reshape wc1)) - Tc1) 0 (colIdx kc1) =
        softmax (matmul Xc1 (reshape wc1)) 0 (colIdx kc1) - Tc1 0 (colIdx kc1) := rfl
    rw [hsub, hzero, hsm, hck]
    norm_num [transp, Xc1, Tc1]
  have huni := h.unique hcon
  rw [hV, hg] at huni
  norm_num at huni

/-- C4 (amended): with the learned attribute `W` absent (no completed fit),
`predict` and `predict_proba` both fail, but with Python's `AttributeError`
from reading the missing attribute `self.W`, not with a `NotFittedError`. -/
theorem claim_C4_untrained_attribute_error {M D C : ℕ} [NeZero C] (s : WLRState D C)
    (X : Mat M D) (h : s.W = none) :
    predict s X = Except.error PyError.attributeError ∧
    predict_proba s X = Except.error PyError.attributeError := by
  unfold predict predict_proba
  rw [h]
  exact ⟨rfl, rfl⟩

/-- Witness for C4 at a concrete untrained instance. -/
theorem claim_C4_untrained_attribute_error_witness :
    predict (WLRState.mk "WL" "GD" 1 10 none : WLRState 1 2) ((fun _ _ => 0) : Mat 1 1) =
      Except.error PyError.attributeError ∧
    predict_proba (WLRState.mk "WL" "GD" 1 10 none : WLRState 1 2)
        ((fun _ _ => 0) : Mat 1 1) =
      Except.error PyError.attributeError :=
  claim_C4_untrained_attribute_error _ _ rfl

/-- Counterexample for C4 as stated: the untrained classifier fails with
`AttributeError`, which is not the claimed `NotFittedError`. -/
theorem counterexample_C4_attribute_not_notfitted :
    predict (WLRState.mk "WL" "GD" 1 10 none : WLRState 1 2) ((fun _ _ => 0) : Mat 1 1) ≠
      Except.error PyError.notFittedError ∧
    predict_proba (WLRState.mk "WL" "GD" 1 10 none : WLRState 1 2)
        ((fun _ _ => 0) : Mat 1 1) ≠
      Except.error PyError.notFittedError ∧
    predict (WLRState.mk "WL" "GD" 1 10 none : WLRState 1 2) ((fun _ _ => 0) : Mat 1 1) =
      Except.error PyError.attributeError := by
  refine ⟨?_, ?_, rfl⟩
  · intro hcon
    have h : predict (WLRState.mk "WL" "GD" 1 10 none : WLRState 1 2)
        ((fun _ _ => 0) : Mat 1 1) = Except.error PyError.attributeError := rfl
    rw [h] at hcon
    injection hcon with h2
    exact absurd h2 (by decide)
  · intro hcon
    have h : predict_proba (WLRState.mk "WL" "GD" 1 10 none : WLRState 1 2)
        ((fun _ _ => 0) : Mat 1 1) = Except.error PyError.attributeError := rfl
    rw [h] at hcon
    injection hcon with h2
    exact absurd h2 (by decide)

/-- C5 (amended): when `fit` dispatches to an external optimizer it stores
the returned point reshaped into `W` unconditionally — also when the
optimizer reports non-success — and only prints the diagnostics; it never
surfaces a `ConvergenceFailure`. -/
theorem claim_C5_external_result_stored {N D C : ℕ} [NeZero C] (s : WLRState D C)
    (X : Mat N D) (T : Mat N C) (Winit : Mat D C) (w0 : Fin (D * C) → ℝ)
    (minimize : ((Fin (D * C) → ℝ) → ℝ) → ((Fin (D * C) → ℝ) → (Fin (D * C) → ℝ)) →
      (Fin (D * C) → ℝ) → OptResult D C)
    (h1 : s.optimizer ≠ "GD") (h2 : s.optimizer ≠ "GD2") :
    fit s X (Labels.twoD T) Winit w0 minimize =
      Except.ok { s with W := some (reshape (minimize (fun w => logLoss s.method w X T)
        (fun w => gradLogLoss s.method w X T) w0).x) } := by
  simp only [fit, encodeT]
  rw [if_neg h1, if_neg h2]

/-- Witness for C5: a failing external result is stored anyway. -/
theorem claim_C5_external_result_stored_witness :
    fit (WLRState.mk "WL" "BFGS" 1 10 none : WLRState 1 2) ((fun _ _ => 0) : Mat 1 1)
        (Labels.twoD ((fun _ _ => 0) : Mat 1 2)) ((fun _ _ => 0) : Mat 1 2) (fun _ => 0)
        (fun _ _ _ => OptResult.mk (fun _ => 5) false 2 "fail") =
      Except.ok (WLRState.mk "WL" "BFGS" 1 10
        (some (reshape ((fun _ => 5) : Fin (1 * 2) → ℝ)))) :=
  claim_C5_external_result_stored _ _ _ _ _ _ (by decide) (by decide)

/-- Counterexample for C5 as stated: the external optimizer reports
non-success, yet `fit` returns `ok` with the unconverged point stored and
does not raise `ConvergenceFailure`. -/
theorem counterexample_C5_failure_stored :
    (OptResult.mk (fun _ => 5) false 2 "fail" : OptResult 1 2).success = false ∧
    fit (WLRState.mk "WL" "BFGS" 1 10 none : WLRState 1 2) ((fun _ _ => 0) : Mat 1 1)
        (Labels.twoD ((fun _ _ => 0) : Mat 1 2)) ((fun _ _ => 0) : Mat 1 2) (fun _ => 0)
        (fun _ _ _ => OptResult.mk (fun _ => 5) false 2 "fail") =
      Except.ok (WLRState.mk "WL" "BFGS" 1 10 (some ((fun _ _ => 5) : Mat 1 2))) ∧
    fit (WLRState.mk "WL" "BFGS" 1 10 none : WLRState 1 2) ((fun _ _ => 0) : Mat 1 1)
        (Labels.twoD ((fun _ _ => 0) : Mat 1 2)) ((fun _ _ => 0) : Mat 1 2) (fun _ => 0)
        (fun _ _ _ => OptResult.mk (fun _ => 5) false 2 "fail") ≠
      Except.error PyError.convergenceFailure := by
  have hfit : fit (WLRState.mk "WL" "BFGS" 1 10 none : WLRState 1 2)
      ((fun _ _ => 0) : Mat 1 1) (Labels.twoD ((fun _ _ => 0) : Mat 1 2))
      ((fun _ _ => 0) : Mat 1 2) (fun _ => 0)
      (fun _ _ _ => OptResult.mk (fun _ => 5) false 2 "fail") =
      Except.ok (WLRState.mk "WL" "BFGS" 1 10 (some ((fun _ _ => 5) : Mat 1 2))) := by
    simp only [fit, encodeT]
    rw [if_neg (by decide : ("BFGS" : String) ≠ "GD"),
      if_neg (by decide : ("BFGS" : String) ≠ "GD2")]
    rfl
  refine ⟨rfl, hfit, ?_⟩
  intro hcon
  rw [hfit] at hcon
  exact Except.noConfusion hcon

/-- C6 (amended): `index2bin` fails with the index error exactly when some
index lies outside `[-dim, dim)`; indices in `[-dim, 0)` do not fail but
wrap around to `index mod dim` (numpy negative indexing); on success the
result has a single 1 per row at the (wrapped) index and every row sums
to 1. -/
theorem claim_C6_index2bin_bounds {n dim : ℕ} (v : Fin n → ℤ) :
    ((∃ i, v i < -(dim : ℤ) ∨ (dim : ℤ) ≤ v i) →
      index2bin v dim = Except.error PyError.indexError) ∧
    ((∀ i, -(dim : ℤ) ≤ v i ∧ v i < (dim : ℤ)) →
      index2bin v dim =
        Except.ok ((fun i j => if v i % (dim : ℤ) = ((j : ℕ) : ℤ) then 1 else 0) : Mat n dim) ∧
      ∀ i, ∑ j : Fin dim, (if v i % (dim : ℤ) = ((j : ℕ) : ℤ) then (1 : ℝ) else 0) = 1) := by
  constructor
  · rintro ⟨i, hi⟩
    unfold index2bin
    rw [if_neg]
    intro hall
    obtain ⟨ha, hb⟩ := hall i
    rcases hi with h | h <;> omega
  · intro hall
    refine ⟨by unfold index2bin; rw [if_pos hall], ?_⟩
    intro i
    obtain ⟨ha, hb⟩ := hall i
    have hdim : 0 < (dim : ℤ) := by omega
    have hlo : 0 ≤ v i % (dim : ℤ) := Int.emod_nonneg _ (by omega)
    have hhi : v i % (dim : ℤ) < (dim : ℤ) := Int.emod_lt_of_pos _ hdim
    have hm : (v i % (dim : ℤ)).toNat < dim := by omega
    have hcond : ∀ j : Fin dim, (v i % (dim : ℤ) = ((j : ℕ) : ℤ)) =
        (j = (⟨(v i % (dim : ℤ)).toNat, hm⟩ : Fin dim)) := by
      intro j
      apply propext
      constructor
      · intro hj
        apply Fin.ext
        show (j : ℕ) = (v i % (dim : ℤ)).toNat
        omega
      · rintro rfl
        show v i % (dim : ℤ) = (((v i % (dim : ℤ)).toNat : ℕ) : ℤ)
        omega
    simp only [hcond]
    rw [Finset.sum_ite_eq' Finset.univ _ (fun _ => (1 : ℝ))]
    simp

/-- Witness for C6: index 3 with dim 2 fails; indices (0, 1) succeed with
one-hot rows summing to 1. -/
theorem claim_C6_index2bin_bounds_witness :
    index2bin (fun _ : Fin 1 => (3 : ℤ)) 2 = Except.error PyError.indexError ∧
    (index2bin ((fun i => (i : ℤ)) : Fin 2 → ℤ) 2 =
      Except.ok ((fun i j => if ((i : ℕ) : ℤ) % (2 : ℤ) = ((j : ℕ) : ℤ) then 1 else 0) : Mat 2 2) ∧
      ∀ i : Fin 2, ∑ j : Fin 2,
        (if ((i : ℕ) : ℤ) % (2 : ℤ) = ((j : ℕ) : ℤ) then (1 : ℝ) else 0) = 1) := by
  constructor
  · exact (claim_C6_index2bin_bounds (fun _ : Fin 1 => (3 : ℤ))).1 ⟨0, by norm_num⟩
  · exact (claim_C6_index2bin_bounds ((fun i => (i : ℤ)) : Fin 2 → ℤ)).2
      (by intro i; fin_cases i <;> norm_num)

/-- Counterexample for C6 as stated: index −1 with dim 2 is negative but
does not fail; the 1 wraps to the last column. -/
theorem counterexample_C6_negative_wrap :
    ((-1 : ℤ) < 0) ∧
    index2bin (fun _ : Fin 1 => (-1 : ℤ)) 2 =
      Except.ok ((fun _ j => if ((j : ℕ) : ℤ) = 1 then 1 else 0) : Mat 1 2) := by
  refine ⟨by norm_num, ?_⟩
  unfold index2bin
  rw [if_pos]
  · congr 1
    funext i j
    fin_cases j <;> norm_num
  · intro i
    constructor <;> norm_num

/-- C8: with the GD optimizer, `fit` is a pure function of the method,
learning rate, iteration count, data and realized initial random draw:
the external-path arguments are irrelevant, two calls with identical inputs
store identical matrices, and the result is exactly `n_it` iterations of
`gdStep` — no convergence check or early exit. -/
theorem claim_C8_gd_deterministic {N D C : ℕ} [NeZero C] (s : WLRState D C)
    (X : Mat N D) (Y : Labels N C) (T : Mat N C) (Winit : Mat D C)
    (w0 w0' : Fin (D * C) → ℝ)
    (minimize minimize' : ((Fin (D * C) → ℝ) → ℝ) →
      ((Fin (D * C) → ℝ) → (Fin (D * C) → ℝ)) → (Fin (D * C) → ℝ) → OptResult D C)
    (hopt : s.optimizer = "GD") (hT : encodeT C Y = Except.ok T) :
    fit s X Y Winit w0 minimize = fit s X Y Winit w0' minimize' ∧
    fit s X Y Winit w0 minimize =
      Except.ok { s with W := some ((gdStep s.method X T s.rho)^[s.n_it] Winit) } := by
  have h1 := fit_gd s X Y T Winit w0 minimize hopt hT
  have h2 := fit_gd s X Y T Winit w0' minimize' hopt hT
  refine ⟨h1.trans h2.symm, h1.trans ?_⟩
  rw [gd_eq_iterate]

/-- Witness for C8 at a concrete instance: the external-path arguments
differ between the two calls, yet the results agree and equal the two-fold
`gdStep` iterate. -/
theorem claim_C8_gd_deterministic_witness :
    fit (WLRState.mk "WL" "GD" 1 2 none : WLRState 1 2) ((fun _ _ => 0) : Mat 1 1)
        (Labels.twoD ((fun _ _ => 0) : Mat 1 2)) ((fun _ _ => 0) : Mat 1 2) (fun _ => 0)
        (fun _ _ _ => OptResult.mk (fun _ => 0) true 0 "ok") =
      fit (WLRState.mk "WL" "GD" 1 2 none : WLRState 1 2) ((fun _ _ => 0) : Mat 1 1)
        (Labels.twoD ((fun _ _ => 0) : Mat 1 2)) ((fun _ _ => 0) : Mat 1 2) (fun _ => 1)
        (fun _ _ _ => OptResult.mk (fun _ => 7) false 1 "bad") ∧
    fit (WLRState.mk "WL" "GD" 1 2 none : WLRState 1 2) ((fun _ _ => 0) : Mat 1 1)
        (Labels.twoD ((fun _ _ => 0) : Mat 1 2)) ((fun _ _ => 0) : Mat 1 2) (fun _ => 0)
        (fun _ _ _ => OptResult.mk (fun _ => 0) true 0 "ok") =
      Except.ok (WLRState.mk "WL" "GD" 1 2
        (some ((gdStep "WL" ((fun _ _ => 0) : Mat 1 1) ((fun _ _ => 0) : Mat 1 2) 1)^[2]
          ((fun _ _ => 0) : Mat 1 2)))) :=
  claim_C8_gd_deterministic _ _ _ _ _ _ _ _ _ rfl rfl

end Claims

end WLC
